import Mathlib

/-!
Shallow embedding of the cut-site matching and read-classification engine of
the ont_demult repository (src/cut_site.rs, src/paf.rs, src/params.rs,
src/strategy.rs), together with theorems settling the frozen claims.

Modelling conventions:
* Rust `usize` is modelled as `Nat`; where the source performs unchecked
  `usize` addition or subtraction we use `wadd`/`wsub`, which reproduce the
  wrapping (release-profile) two-complement semantics modulo `2 ^ 64`.
  Rust `saturating_sub` is exactly truncated `Nat` subtraction.
* A Rust panic (explicit `panic`, a failed `assert`, an `expect` on a parse,
  or an out-of-bounds index) is modelled as `Except.error ()`.
* `HashMap<Rc<str>, Contig>` is modelled as a list of contigs looked up by
  name; iteration order of the hash map is never observable in the claims.
* `slice::binary_search_by_key` is modelled by its documented contract on a
  position-sorted slice: it yields `Ok ix` at an index whose key equals the
  probe, otherwise `Err ix` at the insertion point.  The model returns the
  leftmost matching index; the source guarantees the site lists are sorted
  by position before any query, and no claim distinguishes duplicate
  positions.
* `sort_unstable_by_key` and `max_by_key` are modelled by a stable
  insertion sort and a fold keeping the last maximum (the documented
  behaviour of `Iterator::max_by_key` on ties); the unstable sort of the
  source leaves the order of equal keys unspecified, and no claim
  distinguishes it.
-/

namespace OntDemult

/-- Wrap-around bound of Rust usize arithmetic. -/
def USIZE : Nat := 2 ^ 64

/-- Wrapping usize addition (release-profile Rust `+`). -/
def wadd (a b : Nat) : Nat := (a + b) % USIZE

/-- Wrapping usize subtraction (release-profile Rust `-`). -/
def wsub (a b : Nat) : Nat := (a + (USIZE - b % USIZE)) % USIZE

/-- Cut site definition (src/cut_site.rs, struct Site). -/
structure Site where
  name : String
  pos : Nat
  barcode : String
deriving DecidableEq, Repr

/-- Default site used for total modelling of slice indexing that the source
performs only at indices it has already proved in bounds. -/
def dfltSite : Site := ⟨"", 0, ""⟩

/-- Contig definition (src/cut_site.rs, struct Contig). -/
structure Contig where
  name : String
  circular : Option Bool
  cut_sites : List Site
deriving DecidableEq, Repr

/-- Collection of cut sites (src/cut_site.rs, struct CutSites); the hash map
is modelled as a list of contigs keyed by their name field. -/
structure CutSites where
  chash : List Contig
deriving DecidableEq, Repr

/-- Hash-map lookup by contig name. -/
def CutSites.lookup (cs : CutSites) (contig : String) : Option Contig :=
  cs.chash.find? (fun c => c.name = contig)

/-- Model of `slice::binary_search_by_key` with key `Site.pos` on a
position-sorted slice: `Sum.inl ix` is `Ok(ix)` (exact position match),
`Sum.inr ix` is `Err(ix)` (insertion point). -/
def binary_search_by_pos (sites : List Site) (key : Nat) : Sum Nat Nat :=
  let ix := sites.findIdx (fun s => key ≤ s.pos)
  match sites.get? ix with
  | some s => if s.pos = key then Sum.inl ix else Sum.inr ix
  | none => Sum.inr ix

/-- CutSites::find_site (src/cut_site.rs lines 30-94).  Returns the cut site
closest to `pos` when its distance is at most `max_dist`; `l` is the contig
length.  The result carries the index of the site in the sorted per-contig
list (two references into the same site vector are equal exactly when the
indices are equal).  `Except.error ()` models the `Unexpected case` panic of
the source. -/
def CutSites.find_site (cs : CutSites) (contig : String) (pos max_dist l : Nat) :
    Except Unit (Option (Nat × Site)) :=
  match cs.lookup contig with
  | none => Except.ok none
  | some ctg =>
    match binary_search_by_pos ctg.cut_sites pos with
    | Sum.inl ix => Except.ok (some (ix, ctg.cut_sites.getD ix dfltSite))
    | Sum.inr ix =>
      let d1 : Option (Nat × Nat) :=
        if 0 < ix then (ctg.cut_sites.get? (ix - 1)).map (fun s => (ix - 1, wsub pos s.pos))
        else none
      let d2 : Option (Nat × Nat) := (ctg.cut_sites.get? ix).map (fun s => (ix, wsub s.pos pos))
      let best : Except Unit (Nat × Nat) :=
        match d1, d2 with
        | some (i, x), some (j, y) =>
          Except.ok (if x < y then (i, x) else (j, y))
        | some (i, x), none =>
          if ctg.circular.getD false then
            let x0 := (ctg.cut_sites.getD 0 dfltSite).pos
            let y := if wsub pos l ≤ x0 then wsub (wadd x0 l) pos else wsub (wsub pos l) x0
            Except.ok (if x < y then (i, x) else (0, y))
          else Except.ok (i, x)
        | none, some (j, y) =>
          if j = 0 then
            if ctg.circular.getD false then
              let xn := (ctg.cut_sites.getLastD dfltSite).pos
              let x := if wsub xn l ≤ pos then wsub (wadd pos l) xn else wsub (wsub xn l) pos
              Except.ok (if x < y then (ctg.cut_sites.length - 1, x) else (j, y))
            else Except.ok (j, y)
          else Except.error ()
        | none, none => Except.error ()
      match best with
      | Except.error e => Except.error e
      | Except.ok (i, d) =>
        if d ≤ max_dist then Except.ok (some (i, ctg.cut_sites.getD i dfltSite))
        else Except.ok none

/-- Whitespace recognition of str::trim, restricted to the ASCII whitespace
that can occur in the tab-separated inputs. -/
def isWSChar (c : Char) : Bool := c = ' ' || c = '\t' || c = '\n' || c = '\r'

/-- str::trim over the character list: drop whitespace at both ends. -/
def trimChars (cs : List Char) : List Char :=
  ((cs.dropWhile isWSChar).reverse.dropWhile isWSChar).reverse

/-- str::split on the tab character: always at least one (possibly empty)
piece, one further piece per tab. -/
def splitTab : List Char → List (List Char)
  | [] => [[]]
  | c :: rest =>
    match splitTab rest with
    | [] => [[]]
    | cur :: done => if c = '\t' then [] :: cur :: done else (c :: cur) :: done

/-- The field list of one input line: trim, then split on tabs
(src/cut_site.rs line 115). -/
def fieldsOf (s : String) : List String :=
  (splitTab (trimChars s.data)).map String.mk

/-- Decimal value of a digit list. -/
def digitsVal (cs : List Char) : Nat :=
  cs.foldl (fun n c => n * 10 + (c.toNat - 48)) 0

/-- Rust `usize::from_str` as used by `parse::<usize>()`: an optional plus
sign, then one or more decimal digits, value below `2 ^ 64`. -/
def parse_usize (s : String) : Except Unit Nat :=
  let t := match s.data with
    | '+' :: rest => rest
    | cs => cs
  if t ≠ [] ∧ t.all (fun c => c.isDigit) then
    if digitsVal t < USIZE then Except.ok (digitsVal t) else Except.error ()
  else Except.error ()

/-- Circular-flag literal recognition (src/cut_site.rs lines 125-131) after
lowercasing; an unrecognized literal panics. -/
def parse_circ (s : String) : Except Unit Bool :=
  let t := String.mk (s.data.map Char.toLower)
  if t = "true" ∨ t = "yes" ∨ t = "1" then Except.ok true
  else if t = "false" ∨ t = "no" ∨ t = "0" then Except.ok false
  else Except.error ()

/-- One loop iteration of read_cut_file (src/cut_site.rs lines 113-143):
split the trimmed line on tabs; a row is processed only when strictly more
than 4 fields are present, otherwise it is skipped; the contig is fetched
or created, the circular flag (field 5) is reconciled, the position
(field 2) is parsed, and the new site is appended. -/
def addRow (chash : List Contig) (buf : String) : Except Unit (List Contig) := do
  let fd := fieldsOf buf
  if fd.length > 4 then
    let (i, ctg) :=
      match chash.findIdx? (fun c => c.name = fd.getD 0 "") with
      | some i => (i, chash.getD i ⟨"", none, []⟩)
      | none => (chash.length, ⟨fd.getD 0 "", none, []⟩)
    let fgOpt ←
      match fd.get? 4 with
      | none => pure (none : Option Bool)
      | some s => do
        let b ← parse_circ s
        pure (some b)
    let ctg ←
      match fgOpt, ctg.circular with
      | none, _ => pure ctg
      | some fg, some fgOld =>
        if fg = fgOld then pure ctg else Except.error ()
      | some fg, none => pure { ctg with circular := some fg }
    let pos ← parse_usize (fd.getD 1 "")
    let ctg := { ctg with cut_sites := ctg.cut_sites ++ [⟨fd.getD 2 "", pos, fd.getD 3 ""⟩] }
    pure (if i < chash.length then chash.set i ctg else chash ++ [ctg])
  else
    pure chash

/-- Sorting of the per-contig site list by position (src/cut_site.rs
line 146); the source uses an unstable sort, whose ordering among equal
positions is unspecified. -/
def sortSites (sites : List Site) : List Site :=
  sites.insertionSort (fun a b => a.pos ≤ b.pos)

/-- read_cut_file (src/cut_site.rs lines 108-149) over the list of input
lines: accumulate rows, then sort each contig by position. -/
def read_cut_file (lines : List String) : Except Unit CutSites := do
  let chash ← lines.foldlM addRow []
  pure ⟨chash.map (fun c => { c with cut_sites := sortSites c.cut_sites })⟩

/-- Modelled from the spec: the five-argument CutSites::find_site called
from src/paf.rs (src/cut_site.rs in the repository defines only the
four-argument version, so the body of the directional variant is missing
from src/).  Per the spec (§4.4 step 7) the extra boolean gates whether a
match is honoured at all; the underlying locator is the four-argument one. -/
def CutSites.find_site_dir (cs : CutSites) (contig : String) (pos : Nat) (dir : Bool)
    (max_dist l : Nat) : Except Unit (Option (Nat × Site)) :=
  if dir then cs.find_site contig pos max_dist l else Except.ok none

/-- Strand of a mapping record (src/paf.rs, enum Strand). -/
inductive Strand where
  | Plus
  | Minus
deriving DecidableEq, Repr

/-- Selection strategy (src/strategy.rs, enum Strategy). -/
inductive Strategy where
  | Start
  | Both
  | Either
  | Xor
deriving DecidableEq, Repr

/-- One parsed PAF mapping record (src/paf.rs, struct PafRecord).  The mapq
field is a u8 in the source (values below 256); the model does not depend on
the bound. -/
structure PafRecord where
  qstart : Nat
  qend : Nat
  strand : Strand
  target_name : String
  target_length : Nat
  target_start : Nat
  target_end : Nat
  matching_bases : Nat
  mapq : Nat
deriving DecidableEq, Repr

/-- All mapping records of one read (src/paf.rs, struct PafRead). -/
structure PafRead where
  qname : String
  qlen : Nat
  records : List PafRecord
deriving DecidableEq, Repr

/-- The run configuration consumed by the classifier (src/params.rs, struct
Param, restricted to the fields find_site reads). -/
structure Param where
  select : Strategy
  mapq_thresh : Nat
  max_distance : Nat
  max_unmatched : Nat
  margin : Nat
deriving DecidableEq, Repr

/-- Interior split of a classified read (src/paf.rs, struct InteriorSplit);
fields from and to of the source. -/
structure InteriorSplit where
  from_ : Nat
  to_ : Nat
deriving DecidableEq, Repr

/-- Common location payload (src/paf.rs, struct CommonLoc); start_ and end_
are the two-element arrays start and end of the source (raw boundary,
margin-adjusted boundary). -/
structure CommonLoc where
  strand : Strand
  start_ : Nat × Nat
  end_ : Nat × Nat
  length : Nat
  unused : Nat
  splits : List InteriorSplit
deriving DecidableEq, Repr

/-- Site-carrying match payload (src/paf.rs, struct Match).  The site field
is a reference into the catalog, modelled as the pair of the index in the
per-contig sorted site list and the site value; two such references are the
same catalog entry exactly when the indices coincide. -/
structure Match where
  site : Nat × Site
  inner : CommonLoc
deriving DecidableEq, Repr

/-- Location payload without a resolved site (src/paf.rs, struct Location). -/
structure Location where
  contig : String
  inner : CommonLoc
deriving DecidableEq, Repr

/-- Classification outcome (src/paf.rs, enum FindMatch). -/
inductive FindMatch where
  | Match : Match → FindMatch
  | ExcessUnmatched : Match → FindMatch
  | MisMatch : Location → FindMatch
  | MatchStart : Location → FindMatch
  | MatchBoth : Location → FindMatch
  | MatchEnd : Location → FindMatch
  | Location : Location → FindMatch
deriving DecidableEq, Repr

/-- Outcome tag, used to compare the engine against the strategy-resolution
table of the spec; Unmatched is the tag of the plain-Location outcome. -/
inductive Tag where
  | Matched
  | ExcessUnmatched
  | MisMatch
  | MatchStart
  | MatchBoth
  | MatchEnd
  | Unmatched
deriving DecidableEq, Repr

/-- Tag of an outcome. -/
def FindMatch.tag : FindMatch → Tag
  | .Match _ => Tag.Matched
  | .ExcessUnmatched _ => Tag.ExcessUnmatched
  | .MisMatch _ => Tag.MisMatch
  | .MatchStart _ => Tag.MatchStart
  | .MatchBoth _ => Tag.MatchBoth
  | .MatchEnd _ => Tag.MatchEnd
  | .Location _ => Tag.Unmatched

/-- Fold keeping the last maximum by a key, the behaviour of
Iterator::max_by_key on ties. -/
def maxByKeyLast (key : PafRecord → Nat) (l : List PafRecord) : Option PafRecord :=
  l.foldl
    (fun acc r =>
      match acc with
      | none => some r
      | some m => if key m ≤ key r then some r else some m)
    none

/-- Anchor candidates (src/paf.rs lines 276-279): records passing the mapq
threshold whose target is not more than 150 bases shorter than the read. -/
def PafRead.anchorCandidates (self : PafRead) (param : Param) : List PafRecord :=
  self.records.filter
    (fun r => decide (param.mapq_thresh ≤ r.mapq ∧ self.qlen < wadd r.target_length 150))

/-- Anchor selection (src/paf.rs lines 276-280): the candidate with the
greatest matching-base count. -/
def PafRead.anchor (self : PafRead) (param : Param) : Option PafRecord :=
  maxByKeyLast (fun r => r.matching_bases) (self.anchorCandidates param)

/-- Records on the same contig and strand as the anchor with non-zero mapq,
sorted ascending by query start (src/paf.rs lines 296-304). -/
def PafRead.sameRecs (self : PafRead) (r : PafRecord) : List PafRecord :=
  (self.records.filter
      (fun s => decide (s.target_name = r.target_name ∧ s.strand = r.strand ∧ 0 < s.mapq))).insertionSort
    (fun a b => a.qstart ≤ b.qstart)

/-- Overlap test over consecutive query-start-sorted records (src/paf.rs
lines 315-326): true when a successor query start is at most the
predecessor query end. -/
def hasOverlap : List PafRecord → Bool
  | a :: b :: rest => (b.qstart ≤ a.qend) || hasOverlap (b :: rest)
  | _ => false

/-- Accumulation of covered query bases (src/paf.rs lines 330-333). -/
def usedBasesGo (acc : Nat) : List PafRecord → Nat
  | [] => acc
  | s :: rest => usedBasesGo (wadd acc (wsub s.qend s.qstart)) rest

/-- Inferred raw genomic start boundary (src/paf.rs lines 342-345). -/
def rawStart (s : PafRecord) : Nat :=
  match s.strand with
  | Strand.Plus => s.target_start
  | Strand.Minus => s.target_end

/-- Margin-adjusted genomic start position (src/paf.rs lines 342-345); the
minus-strand case is a saturating subtraction. -/
def sposOf (s : PafRecord) (margin : Nat) : Nat :=
  match s.strand with
  | Strand.Plus => wadd s.target_start margin
  | Strand.Minus => s.target_end - margin

/-- Record ending latest in the read (src/paf.rs line 349). -/
def endRecOf (s : PafRecord) (rest : List PafRecord) : PafRecord :=
  (maxByKeyLast (fun x => x.qend) (s :: rest)).getD s

/-- Inferred raw genomic end boundary (src/paf.rs lines 353-356). -/
def rawEnd (s1 : PafRecord) : Nat :=
  match s1.strand with
  | Strand.Plus => s1.target_end
  | Strand.Minus => s1.target_start

/-- Margin-adjusted genomic end position (src/paf.rs lines 353-356). -/
def sendOf (s1 : PafRecord) (margin : Nat) : Nat :=
  match s1.strand with
  | Strand.Plus => s1.target_end - margin
  | Strand.Minus => wadd s1.target_start margin

/-- Interior splits between adjacent records (src/paf.rs lines 377-392);
the strand is the anchor strand. -/
def splitsOf (strand : Strand) : List PafRecord → List InteriorSplit
  | x :: y :: rest =>
    (match strand with
      | Strand.Plus => InteriorSplit.mk x.target_end y.target_start
      | Strand.Minus => InteriorSplit.mk x.target_start y.target_end) :: splitsOf strand (y :: rest)
  | _ => []

/-- The start-side cut-site lookup (src/paf.rs lines 360-366): at the
margin-adjusted start, honoured only for a plus-strand anchor. -/
def startSiteE (cut_sites : CutSites) (param : Param) (r s : PafRecord) :
    Except Unit (Option (Nat × Site)) :=
  cut_sites.find_site_dir s.target_name (sposOf s param.margin)
    (decide (r.strand = Strand.Plus)) param.max_distance s.target_length

/-- The end-side cut-site lookup (src/paf.rs lines 367-373): at the
margin-adjusted end, honoured only for a minus-strand anchor. -/
def endSiteE (cut_sites : CutSites) (param : Param) (r s : PafRecord)
    (rest : List PafRecord) : Except Unit (Option (Nat × Site)) :=
  cut_sites.find_site_dir s.target_name (sendOf (endRecOf s rest) param.margin)
    (decide (r.strand = Strand.Minus)) param.max_distance s.target_length

/-- The common location payload built at src/paf.rs lines 394-401. -/
def clocOf (self : PafRead) (param : Param) (r s : PafRecord) (rest : List PafRecord)
    (unused : Nat) : CommonLoc :=
  { strand := s.strand
    start_ := (rawStart s, sposOf s param.margin)
    end_ := (rawEnd (endRecOf s rest), sendOf (endRecOf s rest) param.margin)
    length := self.qlen
    unused := unused
    splits := splitsOf r.strand (s :: rest) }

/-- The unused-base gate (src/paf.rs lines 402-408, closure check_match). -/
def checkMatch (unused max_unmatched : Nat) (m : Match) : FindMatch :=
  if max_unmatched < unused then FindMatch.ExcessUnmatched m else FindMatch.Match m

/-- Resolution of the outcome from the two site lookups and the strategy
(src/paf.rs lines 410-453).  The source compares the two site references
with ==; references into the same per-contig site vector are equal exactly
when their indices are equal (catalog identity). -/
def resolveMatch (contig : String) (cloc : CommonLoc) (unused max_unmatched : Nat)
    (start_site end_site : Option (Nat × Site)) (select : Strategy) : FindMatch :=
  match start_site, end_site, select with
  | some m1, some m2, sel =>
    if m1.1 = m2.1 then
      if sel = Strategy.Xor then FindMatch.MatchBoth ⟨contig, cloc⟩
      else checkMatch unused max_unmatched ⟨m1, cloc⟩
    else FindMatch.MisMatch ⟨contig, cloc⟩
  | some _, none, Strategy.Both => FindMatch.MatchStart ⟨contig, cloc⟩
  | some m, none, _ => checkMatch unused max_unmatched ⟨m, cloc⟩
  | none, some m, Strategy.Either => checkMatch unused max_unmatched ⟨m, cloc⟩
  | none, some m, Strategy.Xor => checkMatch unused max_unmatched ⟨m, cloc⟩
  | none, some _, _ => FindMatch.MatchEnd ⟨contig, cloc⟩
  | none, none, _ => FindMatch.Location ⟨contig, cloc⟩

/-- PafRead::find_site (src/paf.rs lines 269-458).  `Except.error ()` models
a panic: the out-of-bounds index recs[0] when the same-contig list is empty,
or the failed assert on the covered-base count.  `Except.ok none` is the
None result of the source (no anchor, or the overlap guard fired). -/
def PafRead.find_site (self : PafRead) (cut_sites : CutSites) (param : Param) :
    Except Unit (Option FindMatch) :=
  match self.anchor param with
  | none => Except.ok none
  | some r =>
    match self.sameRecs r with
    | [] => Except.error ()
    | s :: rest =>
      if hasOverlap (s :: rest) then Except.ok none
      else if usedBasesGo 0 (s :: rest) ≤ self.qlen then
        match startSiteE cut_sites param r s, endSiteE cut_sites param r s rest with
        | Except.ok st, Except.ok en =>
          Except.ok (some (resolveMatch s.target_name
            (clocOf self param r s rest (self.qlen - usedBasesGo 0 (s :: rest)))
            (self.qlen - usedBasesGo 0 (s :: rest)) param.max_unmatched st en param.select))
        | Except.error e, _ => Except.error e
        | _, Except.error e => Except.error e
      else Except.error ()

/-- Modelled from the spec: the strategy-resolution table of §4.4 step 9 at
tag level, with the Matched/ExcessUnmatched cells resolved by the excess
flag (true when the unused-base count exceeds the configured maximum) and
site identity compared by catalog identity (index in the per-contig sorted
site list). -/
def specOutcomeTable (start_site end_site : Option (Nat × Site)) (sel : Strategy)
    (excess : Bool) : Tag :=
  match start_site, end_site with
  | some m1, some m2 =>
    if m1.1 = m2.1 then
      if sel = Strategy.Xor then Tag.MatchBoth
      else if excess then Tag.ExcessUnmatched else Tag.Matched
    else Tag.MisMatch
  | some _, none =>
    if sel = Strategy.Both then Tag.MatchStart
    else if excess then Tag.ExcessUnmatched else Tag.Matched
  | none, some _ =>
    if sel = Strategy.Either ∨ sel = Strategy.Xor then
      if excess then Tag.ExcessUnmatched else Tag.Matched
    else Tag.MatchEnd
  | none, none => Tag.Unmatched

/-- True (non-wrapping) sum of the covered query spans, used to reason about
the covered-base accumulation of the source. -/
def spanSum : List PafRecord → Nat
  | [] => 0
  | s :: rest => (s.qend - s.qstart) + spanSum rest

/-- Catalog with one contig and two sites, exposing the tie-break between
two flanking sites. -/
def csC2 : CutSites := ⟨[⟨"c", none, [⟨"A", 10, "b1"⟩, ⟨"B", 20, "b2"⟩]⟩]⟩

/-- Circular contig of the wraparound scenario: sites at 5 and 95 only. -/
def csC3 : CutSites := ⟨[⟨"c", some true, [⟨"S1", 5, "b1"⟩, ⟨"S2", 95, "b2"⟩]⟩]⟩

/-- The same contig with the circular flag absent. -/
def csC3lin : CutSites := ⟨[⟨"c", none, [⟨"S1", 5, "b1"⟩, ⟨"S2", 95, "b2"⟩]⟩]⟩

/-- Catalog holding a contig whose site list is empty. -/
def csC8 : CutSites := ⟨[⟨"e", none, []⟩]⟩

/-- Catalog with one linear contig chrA and one site at position 500. -/
def wCs : CutSites := ⟨[⟨"chrA", none, [⟨"siteA", 500, "bcA"⟩]⟩]⟩

/-- A plus-strand record mapping query 0-120 to chrA positions 480-600. -/
def wRec : PafRecord := ⟨0, 120, Strand.Plus, "chrA", 1000, 480, 600, 100, 60⟩

/-- A single-record read fully covered by wRec. -/
def wRead : PafRead := ⟨"r1", 120, [wRec]⟩

/-- Configuration: Start strategy, mapq threshold 1, max distance 30,
max unmatched 10, margin 0. -/
def wParam : Param := ⟨Strategy.Start, 1, 30, 10, 0⟩

/-- The outcome the classifier produces for wRead against wCs and wParam. -/
def wFm : FindMatch :=
  FindMatch.Match ⟨(0, ⟨"siteA", 500, "bcA"⟩),
    ⟨Strand.Plus, (480, 480), (600, 600), 120, 0, []⟩⟩

/-- A read of length 200 whose single segment covers only 120 query bases,
leaving 80 unused. -/
def wRead5 : PafRead := ⟨"r5", 200, [⟨0, 120, Strand.Plus, "chrA", 1000, 480, 600, 100, 60⟩]⟩

/-- Configuration whose maximum-unmatched threshold equals the 80 unused
bases of wRead5. -/
def wParam5a : Param := ⟨Strategy.Start, 1, 30, 80, 0⟩

/-- Configuration whose maximum-unmatched threshold is one below the 80
unused bases of wRead5. -/
def wParam5b : Param := ⟨Strategy.Start, 1, 30, 79, 0⟩

/-- The outcome the classifier produces for wRead5 against wCs and
wParam5b: ExcessUnmatched carrying 80 unused bases. -/
def wFm5 : FindMatch :=
  FindMatch.ExcessUnmatched ⟨(0, ⟨"siteA", 500, "bcA"⟩),
    ⟨Strand.Plus, (480, 480), (600, 600), 200, 80, []⟩⟩

/-- A two-segment read whose query spans 0-150 and 140-300 overlap. -/
def wRead6 : PafRead :=
  ⟨"r6", 300,
    [⟨0, 150, Strand.Plus, "chrA", 1000, 480, 630, 100, 60⟩,
     ⟨140, 300, Strand.Plus, "chrA", 1000, 700, 860, 90, 60⟩]⟩

/-- Configuration with mapping-quality threshold 0. -/
def wParam10 : Param := ⟨Strategy.Start, 0, 30, 10, 0⟩

/-- A record with mapping quality 0. -/
def wRec10 : PafRecord := ⟨0, 120, Strand.Plus, "chrA", 1000, 480, 600, 100, 0⟩

/-- A read whose only record has mapping quality 0; with threshold 0 it is
selected as anchor yet excluded from the same-contig list. -/
def wRead10 : PafRead := ⟨"r10", 120, [wRec10]⟩

/-- The threshold-passing record of the anchor-slack scenario: target length
100, so the read length 250 exceeds it by exactly 150. -/
def wRec7 : PafRecord := ⟨0, 250, Strand.Plus, "c", 100, 0, 100, 90, 60⟩

/-- A read of length exactly wRec7.target_length + 150. -/
def wRead7 : PafRead := ⟨"r7", 250, [wRec7]⟩

/-- A read one base shorter than the slack bound, whose record is a
candidate. -/
def wRead7b : PafRead := ⟨"r7b", 249, [wRec7]⟩

theorem wsub_eq {a b : Nat} (h1 : b ≤ a) (h2 : a < USIZE) : wsub a b = a - b := by
  unfold wsub USIZE at *
  omega

theorem wadd_eq {a b : Nat} (h : a + b < USIZE) : wadd a b = a + b := by
  unfold wadd USIZE at *
  omega

theorem maxByKeyLast_aux (key : PafRecord → Nat) :
    ∀ (l : List PafRecord) (acc : Option PafRecord) (r : PafRecord),
      l.foldl
          (fun acc r =>
            match acc with
            | none => some r
            | some m => if key m ≤ key r then some r else some m)
          acc = some r →
      acc = some r ∨ r ∈ l := by
  intro l
  induction l with
  | nil => intro acc r h; exact Or.inl h
  | cons x xs ih =>
    intro acc r h
    rcases ih _ r h with h' | h'
    · rcases acc with _ | m
      · simp only at h'
        exact Or.inr (by simp [← Option.some.inj h'])
      · simp only at h'
        by_cases hc : key m ≤ key x
        · rw [if_pos hc] at h'
          exact Or.inr (by simp [← Option.some.inj h'])
        · rw [if_neg hc] at h'
          exact Or.inl h'
    · exact Or.inr (List.mem_cons_of_mem x h')

theorem maxByKeyLast_mem {key : PafRecord → Nat} {l : List PafRecord} {r : PafRecord}
    (h : maxByKeyLast key l = some r) : r ∈ l := by
  rcases maxByKeyLast_aux key l none r h with h' | h'
  · cases h'
  · exact h'

theorem anchor_mem_candidates {read : PafRead} {param : Param} {r : PafRecord}
    (h : read.anchor param = some r) : r ∈ read.anchorCandidates param :=
  maxByKeyLast_mem h

theorem mem_anchorCandidates {read : PafRead} {param : Param} {r : PafRecord}
    (h : r ∈ read.anchorCandidates param) :
    r ∈ read.records ∧ param.mapq_thresh ≤ r.mapq ∧ read.qlen < wadd r.target_length 150 := by
  unfold PafRead.anchorCandidates at h
  rw [List.mem_filter] at h
  exact ⟨h.1, by simpa using h.2⟩

theorem resolveMatch_tag (contig : String) (cloc : CommonLoc) (unused max_unmatched : Nat)
    (s1 s2 : Option (Nat × Site)) (sel : Strategy) :
    (resolveMatch contig cloc unused max_unmatched s1 s2 sel).tag =
      specOutcomeTable s1 s2 sel (decide (max_unmatched < unused)) := by
  rcases s1 with _ | m1 <;> rcases s2 with _ | m2 <;> cases sel <;>
    simp [resolveMatch, specOutcomeTable, checkMatch, FindMatch.tag] <;>
    split_ifs <;> simp [FindMatch.tag]

theorem checkMatch_excess {unused max_unmatched : Nat} {m m' : Match}
    (h : checkMatch unused max_unmatched m = FindMatch.ExcessUnmatched m') :
    max_unmatched < unused ∧ m' = m := by
  unfold checkMatch at h
  split_ifs at h with hc
  exact ⟨hc, (FindMatch.ExcessUnmatched.inj h).symm⟩

theorem checkMatch_matched {unused max_unmatched : Nat} {m m' : Match}
    (h : checkMatch unused max_unmatched m = FindMatch.Match m') :
    unused ≤ max_unmatched ∧ m' = m := by
  unfold checkMatch at h
  split_ifs at h with hc
  exact ⟨Nat.not_lt.mp hc, (FindMatch.Match.inj h).symm⟩

theorem resolveMatch_excess {contig : String} {cloc : CommonLoc} {unused max_unmatched : Nat}
    {s1 s2 : Option (Nat × Site)} {sel : Strategy} {m : Match}
    (h : resolveMatch contig cloc unused max_unmatched s1 s2 sel = FindMatch.ExcessUnmatched m) :
    max_unmatched < unused ∧ m.inner = cloc := by
  rcases s1 with _ | m1 <;> rcases s2 with _ | m2 <;> cases sel <;>
    simp only [resolveMatch] at h <;>
    first
      | exact FindMatch.noConfusion h
      | (rcases checkMatch_excess h with ⟨h1, h2⟩; exact ⟨h1, by rw [h2]⟩)
      | (split_ifs at h <;>
          first
            | exact FindMatch.noConfusion h
            | (rcases checkMatch_excess h with ⟨h1, h2⟩; exact ⟨h1, by rw [h2]⟩))

theorem resolveMatch_matched {contig : String} {cloc : CommonLoc} {unused max_unmatched : Nat}
    {s1 s2 : Option (Nat × Site)} {sel : Strategy} {m : Match}
    (h : resolveMatch contig cloc unused max_unmatched s1 s2 sel = FindMatch.Match m) :
    unused ≤ max_unmatched ∧ m.inner = cloc := by
  rcases s1 with _ | m1 <;> rcases s2 with _ | m2 <;> cases sel <;>
    simp only [resolveMatch] at h <;>
    first
      | exact FindMatch.noConfusion h
      | (rcases checkMatch_matched h with ⟨h1, h2⟩; exact ⟨h1, by rw [h2]⟩)
      | (split_ifs at h <;>
          first
            | exact FindMatch.noConfusion h
            | (rcases checkMatch_matched h with ⟨h1, h2⟩; exact ⟨h1, by rw [h2]⟩))

/-- C2 counterexample: with sites at positions 10 and 20 on contig c, a
query at the exact midpoint 15 has equal distances to both flanking sites,
and find_site returns the successor (index 1, site B at 20), not the
predecessor (index 0, site A at 10) that the claim specifies. -/
theorem c2_tie_counterexample :
    (15 - 10 = 20 - 15) ∧
    csC2.find_site "c" 15 100 1000 =
      Except.ok (some (1, ⟨"B", 20, "b2"⟩)) ∧
    ((1, (⟨"B", 20, "b2"⟩ : Site)) ≠ ((0 : Nat), (⟨"A", 10, "b1"⟩ : Site))) := by
  refine ⟨rfl, rfl, by decide⟩

/-- C3: the wraparound scenario of the claim evaluated on the code.  On the
circular contig of length 1000 with sites at 5 and 95, a query at 998 with
max_dist 7 reports no match instead of the site at position 5: the source
computes the guard pos - l on usize, which wraps below zero, so the ring
distance comes out near 2 ^ 64 and the wraparound candidate never wins (in
a debug build the same subtraction panics).  The second conjunct is the
linear half of the claim, which the code does satisfy. -/
theorem c3_wraparound_failing_input :
    csC3.find_site "c" 998 7 1000 = Except.ok none ∧
    csC3lin.find_site "c" 998 7 1000 = Except.ok none := ⟨rfl, rfl⟩

/-- C4: a well-formed row of exactly 4 tab-separated fields is silently
skipped (the source requires strictly more than 4 fields), producing an
empty catalog, while the same row with a fifth field is added; the header
comment of read_cut_file documents 4 or 5 columns with the fifth optional. -/
theorem c4_four_field_row_failing_input :
    read_cut_file ["chr1\t100\tsiteA\tbc1"] = Except.ok ⟨[]⟩ ∧
    read_cut_file ["chr1\t100\tsiteA\tbc1\t1"] =
      Except.ok ⟨[⟨"chr1", some true, [⟨"siteA", 100, "bc1"⟩]⟩]⟩ := ⟨rfl, rfl⟩

/-- C7 counterexample: wRec7 passes the mapping-quality threshold and the
read length 250 exceeds its target length 100 by exactly 150 (not more),
yet it is not an anchor candidate. -/
theorem c7_slack_counterexample :
    wParam.mapq_thresh ≤ wRec7.mapq ∧
    wRead7.qlen = wRec7.target_length + 150 ∧
    wRec7 ∈ wRead7.records ∧
    wRec7 ∉ wRead7.anchorCandidates wParam := by
  refine ⟨by decide, rfl, by decide, by decide⟩

/-- C8 counterexample: contig e is present in the catalog with an empty
site list, and find_site fails (the model of the unreachable-case panic of
the source) instead of returning no match. -/
theorem c8_empty_contig_counterexample :
    csC8.lookup "e" = some ⟨"e", none, []⟩ ∧
    csC8.find_site "e" 3 5 100 = Except.error () ∧
    csC8.find_site "e" 3 5 100 ≠ Except.ok none := by
  have he : csC8.find_site "e" 3 5 100 = Except.error () := rfl
  refine ⟨rfl, he, fun h => ?_⟩
  rw [he] at h
  exact Except.noConfusion h

/-- C6: for every AlignmentGroup in which, after selecting the
same-contig/same-strand/non-zero-mapq segments sorted by query start, two
consecutive segments overlap in the query (successor query start at most
predecessor query end), find_site returns no classification at all. -/
theorem c6_overlap_guard (read : PafRead) (cs : CutSites) (param : Param) (r : PafRecord)
    (ha : read.anchor param = some r)
    (hov : hasOverlap (read.sameRecs r) = true) :
    read.find_site cs param = Except.ok none := by
  rcases hrecs : read.sameRecs r with _ | ⟨s, rest⟩
  · rw [hrecs] at hov
    simp [hasOverlap] at hov
  · rw [hrecs] at hov
    simp [PafRead.find_site, ha, hrecs, hov]

theorem c6_overlap_guard_witness :
    wRead6.anchor wParam = some ⟨0, 150, Strand.Plus, "chrA", 1000, 480, 630, 100, 60⟩ ∧
    hasOverlap (wRead6.sameRecs ⟨0, 150, Strand.Plus, "chrA", 1000, 480, 630, 100, 60⟩) = true ∧
    wRead6.find_site wCs wParam = Except.ok none :=
  ⟨rfl, by decide,
    c6_overlap_guard wRead6 wCs wParam ⟨0, 150, Strand.Plus, "chrA", 1000, 480, 630, 100, 60⟩
      rfl (by decide)⟩

/-- C8 (amended): for every contig present in the catalog whose site list
is empty, find_site fails with the unreachable-case panic of the source
(modelled as an error) for every position, maximum distance and contig
length, instead of returning no match. -/
theorem c8_empty_contig_amended (cs : CutSites) (cname : String) (ctg : Contig)
    (pos max_dist l : Nat) (hl : cs.lookup cname = some ctg) (he : ctg.cut_sites = []) :
    cs.find_site cname pos max_dist l = Except.error () := by
  simp [CutSites.find_site, hl, he, binary_search_by_pos]

theorem c8_empty_contig_amended_witness :
    csC8.lookup "e" = some ⟨"e", none, []⟩ ∧
    csC8.find_site "e" 7 9 50 = Except.error () :=
  ⟨rfl, c8_empty_contig_amended csC8 "e" ⟨"e", none, []⟩ 7 9 50 rfl rfl⟩

/-- C7 (amended): a record is an anchor candidate exactly when it passes
the mapping-quality threshold and the total query length is strictly below
its target length plus 150; equivalently a threshold-passing segment is
excluded exactly when the query length exceeds the target length by 150 or
more, so an excess of exactly 150 is already excluded. -/
theorem c7_slack_amended (read : PafRead) (param : Param) (r : PafRecord)
    (hb : r.target_length + 150 < USIZE) :
    r ∈ read.anchorCandidates param ↔
      r ∈ read.records ∧ param.mapq_thresh ≤ r.mapq ∧
        read.qlen < r.target_length + 150 := by
  unfold PafRead.anchorCandidates
  simp only [List.mem_filter, decide_eq_true_eq, wadd_eq hb]

theorem c7_slack_amended_witness :
    wRec7.target_length + 150 < USIZE ∧
    (wRec7 ∈ wRead7b.anchorCandidates wParam ↔
      wRec7 ∈ wRead7b.records ∧ wParam.mapq_thresh ≤ wRec7.mapq ∧
        wRead7b.qlen < wRec7.target_length + 150) :=
  ⟨by decide, c7_slack_amended wRead7b wParam wRec7 (by decide)⟩

/-- C10: after anchor selection the classifier indexes the first element of
the same-contig/same-strand/non-zero-mapq list without an emptiness check;
with a mapping-quality threshold of at least 1 the anchor itself is always
in that list, so the access is in bounds, while with threshold 0 and every
segment of the anchor contig and strand at mapping quality 0 the list is
empty and find_site hits the out-of-bounds access (modelled as an error). -/
theorem c10_recs_index_bound :
    (∀ (read : PafRead) (param : Param) (r : PafRecord),
        1 ≤ param.mapq_thresh → read.anchor param = some r → read.sameRecs r ≠ []) ∧
    (∀ (read : PafRead) (cs : CutSites) (param : Param) (r : PafRecord),
        read.anchor param = some r →
        (∀ x ∈ read.records, x.target_name = r.target_name → x.strand = r.strand → x.mapq = 0) →
        read.find_site cs param = Except.error ()) := by
  constructor
  · intro read param r hth ha hnil
    have hmem := mem_anchorCandidates (anchor_mem_candidates ha)
    have hmapq : 0 < r.mapq := by
      have := hmem.2.1
      omega
    have hfil : r ∈ read.records.filter
        (fun s => decide (s.target_name = r.target_name ∧ s.strand = r.strand ∧ 0 < s.mapq)) := by
      rw [List.mem_filter]
      exact ⟨hmem.1, by simp [hmapq]⟩
    have hin : r ∈ read.sameRecs r := by
      unfold PafRead.sameRecs
      rw [List.mem_insertionSort]
      exact hfil
    rw [hnil] at hin
    exact List.not_mem_nil r hin
  · intro read cs param r ha hzero
    have hfil : read.records.filter
        (fun s => decide (s.target_name = r.target_name ∧ s.strand = r.strand ∧ 0 < s.mapq)) = [] := by
      rw [List.filter_eq_nil_iff]
      intro x hx
      simp only [decide_eq_true_eq, not_and]
      intro h1 h2
      have := hzero x hx h1 h2
      omega
    have hrecs : read.sameRecs r = [] := by
      unfold PafRead.sameRecs
      rw [hfil]
      rfl
    simp [PafRead.find_site, ha, hrecs]

theorem c10_recs_index_bound_witness :
    wRead.sameRecs wRec ≠ [] ∧
    wRead10.find_site wCs wParam10 = Except.error () :=
  ⟨c10_recs_index_bound.1 wRead wParam wRec (by decide) rfl,
   c10_recs_index_bound.2 wRead10 wCs wParam10 wRec10 rfl (by decide)⟩

theorem hasOverlap_cons {a b : PafRecord} {l : List PafRecord}
    (h : hasOverlap (a :: b :: l) = false) :
    a.qend < b.qstart ∧ hasOverlap (b :: l) = false := by
  unfold hasOverlap at h
  rw [Bool.or_eq_false_iff] at h
  refine ⟨?_, h.2⟩
  have := h.1
  simp only [decide_eq_false_iff_not, Nat.not_le] at this
  exact this

theorem spanSum_chain :
    ∀ (l : List PafRecord) (a : PafRecord) (Q : Nat),
      hasOverlap (a :: l) = false →
      (∀ x ∈ a :: l, x.qstart < x.qend ∧ x.qend ≤ Q) →
      a.qstart + spanSum (a :: l) ≤ Q := by
  intro l
  induction l with
  | nil =>
    intro a Q _ hsp
    have ha := hsp a (List.mem_cons_self a [])
    simp only [spanSum]
    omega
  | cons b l ih =>
    intro a Q hov hsp
    rcases hasOverlap_cons hov with ⟨hab, hov'⟩
    have hIH := ih b Q hov' (fun x hx => hsp x (List.mem_cons_of_mem a hx))
    have ha := hsp a (List.mem_cons_self a (b :: l))
    simp only [spanSum] at hIH ⊢
    omega

theorem usedBasesGo_spanSum :
    ∀ (l : List PafRecord) (acc : Nat),
      (∀ x ∈ l, x.qstart < x.qend ∧ x.qend < USIZE) →
      acc + spanSum l < USIZE →
      usedBasesGo acc l = acc + spanSum l := by
  intro l
  induction l with
  | nil =>
    intro acc _ _
    simp [usedBasesGo, spanSum]
  | cons s rest ih =>
    intro acc hsp hb
    have hs := hsp s (List.mem_cons_self s rest)
    have hd : wsub s.qend s.qstart = s.qend - s.qstart := wsub_eq (Nat.le_of_lt hs.1) hs.2
    have hsum : spanSum (s :: rest) = (s.qend - s.qstart) + spanSum rest := rfl
    have hacc : wadd acc (s.qend - s.qstart) = acc + (s.qend - s.qstart) := by
      apply wadd_eq
      omega
    show usedBasesGo (wadd acc (wsub s.qend s.qstart)) rest = acc + spanSum (s :: rest)
    rw [hd, hacc,
      ih (acc + (s.qend - s.qstart)) (fun x hx => hsp x (List.mem_cons_of_mem s hx)) (by omega)]
    omega

/-- C9: for every group whose records satisfy the parse-time invariants
(query end above query start and at most the total query length) and whose
selected same-contig list passes the overlap guard, the accumulated covered
query bases never exceed the query length, so the unused count is
non-negative and the assert of the source never fires. -/
theorem c9_unused_invariant (read : PafRead) (param : Param) (r : PafRecord)
    (hinv : ∀ x ∈ read.records, x.qstart < x.qend ∧ x.qend ≤ read.qlen)
    (hq : read.qlen < USIZE)
    (_ha : read.anchor param = some r)
    (hov : hasOverlap (read.sameRecs r) = false) :
    usedBasesGo 0 (read.sameRecs r) ≤ read.qlen := by
  have hmem : ∀ x ∈ read.sameRecs r, x ∈ read.records := by
    intro x hx
    unfold PafRead.sameRecs at hx
    rw [List.mem_insertionSort] at hx
    exact (List.mem_filter.mp hx).1
  have hsp : ∀ x ∈ read.sameRecs r, x.qstart < x.qend ∧ x.qend ≤ read.qlen :=
    fun x hx => hinv x (hmem x hx)
  rcases hl : read.sameRecs r with _ | ⟨s, rest⟩
  · simp [usedBasesGo]
  · rw [hl] at hov hsp
    have h1 := spanSum_chain rest s read.qlen hov hsp
    have h2 := usedBasesGo_spanSum (s :: rest) 0
      (fun x hx => ⟨(hsp x hx).1, lt_of_le_of_lt (hsp x hx).2 hq⟩) (by omega)
    omega

theorem c9_unused_invariant_witness :
    usedBasesGo 0 (wRead.sameRecs wRec) ≤ wRead.qlen :=
  c9_unused_invariant wRead wParam wRec (by decide) (by decide) rfl (by decide)

theorem find_site_ok_some {read : PafRead} {cs : CutSites} {param : Param} {fm : FindMatch}
    (h : read.find_site cs param = Except.ok (some fm)) :
    ∃ r s rest st en,
      read.anchor param = some r ∧
      read.sameRecs r = s :: rest ∧
      hasOverlap (s :: rest) = false ∧
      usedBasesGo 0 (s :: rest) ≤ read.qlen ∧
      startSiteE cs param r s = Except.ok st ∧
      endSiteE cs param r s rest = Except.ok en ∧
      fm = resolveMatch s.target_name
        (clocOf read param r s rest (read.qlen - usedBasesGo 0 (s :: rest)))
        (read.qlen - usedBasesGo 0 (s :: rest)) param.max_unmatched st en param.select := by
  unfold PafRead.find_site at h
  split at h
  · simp at h
  next r ha =>
    split at h
    · simp at h
    next s rest hrecs =>
      split at h
      · simp at h
      next hov =>
        split at h
        next hused =>
          split at h
          next st en hst hen =>
            refine ⟨r, s, rest, st, en, ha, hrecs, ?_, hused, hst, hen, ?_⟩
            · simpa using hov
            · have := Except.ok.inj h
              exact (Option.some.inj this).symm
          next e hst =>
            simp at h
          next e x hen =>
            simp at h
        next hused =>
          simp at h

/-- C1: for every finalized AlignmentGroup that reaches step 9 of the
classification (an anchor was selected, the same-contig list is non-empty,
the overlap guard did not fire and the covered-base assert passed), the
outcome tag is exactly the one given by the strategy-resolution table of
the spec applied to the two site-lookup results of the code and the
configured strategy, with site identity compared by catalog identity and
the Matched/ExcessUnmatched cells resolved by the unused-base budget. -/
theorem c1_strategy_table (read : PafRead) (cs : CutSites) (param : Param) (fm : FindMatch)
    (h : read.find_site cs param = Except.ok (some fm)) :
    ∃ r s rest st en,
      read.anchor param = some r ∧
      read.sameRecs r = s :: rest ∧
      hasOverlap (s :: rest) = false ∧
      startSiteE cs param r s = Except.ok st ∧
      endSiteE cs param r s rest = Except.ok en ∧
      fm.tag = specOutcomeTable st en param.select
        (decide (param.max_unmatched < read.qlen - usedBasesGo 0 (s :: rest))) := by
  obtain ⟨r, s, rest, st, en, ha, hrecs, hov, _, hst, hen, hfm⟩ := find_site_ok_some h
  refine ⟨r, s, rest, st, en, ha, hrecs, hov, hst, hen, ?_⟩
  rw [hfm]
  exact resolveMatch_tag _ _ _ _ _ _ _

theorem c1_strategy_table_witness :
    wRead.find_site wCs wParam = Except.ok (some wFm) ∧
    ∃ r s rest st en,
      wRead.anchor wParam = some r ∧
      wRead.sameRecs r = s :: rest ∧
      hasOverlap (s :: rest) = false ∧
      startSiteE wCs wParam r s = Except.ok st ∧
      endSiteE wCs wParam r s rest = Except.ok en ∧
      wFm.tag = specOutcomeTable st en wParam.select
        (decide (wParam.max_unmatched < wRead.qlen - usedBasesGo 0 (s :: rest))) :=
  ⟨rfl, c1_strategy_table wRead wCs wParam wFm rfl⟩

/-- C5: whenever the classification reaches a Matched/ExcessUnmatched table
cell, the outcome is ExcessUnmatched exactly when the unused-base count
carried by the outcome strictly exceeds the configured maximum-unmatched
threshold, and Matched (same payload) otherwise; equality with the
threshold yields Matched. -/
theorem c5_excess_unmatched_gate (read : PafRead) (cs : CutSites) (param : Param)
    (fm : FindMatch) (h : read.find_site cs param = Except.ok (some fm)) :
    (∀ m, fm = FindMatch.ExcessUnmatched m → param.max_unmatched < m.inner.unused) ∧
    (∀ m, fm = FindMatch.Match m → m.inner.unused ≤ param.max_unmatched) := by
  obtain ⟨r, s, rest, st, en, _, _, _, _, _, _, hfm⟩ := find_site_ok_some h
  subst hfm
  constructor
  · intro m hm
    rcases resolveMatch_excess hm with ⟨h1, h2⟩
    rw [h2]
    exact h1
  · intro m hm
    rcases resolveMatch_matched hm with ⟨h1, h2⟩
    rw [h2]
    exact h1

theorem getD_of_get? {l : List Site} {n : Nat} {s : Site} (h : l.get? n = some s) (d : Site) :
    l.getD n d = s := by
  rw [List.get?_eq_getElem?] at h
  simp [List.getD, h]

theorem between_search {sites : List Site} {i p : Nat} {si sj : Site}
    (hsort : List.Pairwise (fun a b => a.pos ≤ b.pos) sites)
    (hgi : sites.get? i = some si) (hgj : sites.get? (i + 1) = some sj)
    (h1 : si.pos < p) (h2 : p < sj.pos) :
    binary_search_by_pos sites p = Sum.inr (i + 1) := by
  obtain ⟨hleni, hei⟩ := List.get?_eq_some.mp hgi
  obtain ⟨hlen, hej⟩ := List.get?_eq_some.mp hgj
  have hfi : sites.findIdx (fun s => decide (p ≤ s.pos)) = i + 1 := by
    rw [List.findIdx_eq hlen]
    constructor
    · have : sites[i + 1] = sj := hej
      simp [this]
      omega
    · intro j hj
      have hjlen : j < sites.length := Nat.lt_trans hj hlen
      have hle : sites[j].pos ≤ si.pos := by
        rcases Nat.lt_or_ge j i with hji | hji
        · have := List.pairwise_iff_get.mp hsort ⟨j, hjlen⟩ ⟨i, hleni⟩ hji
          rw [hei] at this
          exact this
        · have hje : j = i := by omega
          subst hje
          have : sites[j] = si := hei
          rw [this]
      simp
      omega
  unfold binary_search_by_pos
  rw [hfi]
  simp only [hgj]
  rw [if_neg (by omega)]

/-- C2 (amended): for every contig and every query position p strictly
between two adjacent sites (no exact position match), when the smaller
flanking distance is within max_dist, find_site returns whichever of the
immediate predecessor and successor is numerically closer to p, and on an
exact midpoint tie it returns the successor (the source keeps the successor
whenever the predecessor distance is not strictly smaller). -/
theorem c2_between_sites_amended (cs : CutSites) (cname : String) (ctg : Contig)
    (i p max_dist l : Nat) (si sj : Site)
    (hl : cs.lookup cname = some ctg)
    (hsort : List.Pairwise (fun a b => a.pos ≤ b.pos) ctg.cut_sites)
    (hgi : ctg.cut_sites.get? i = some si)
    (hgj : ctg.cut_sites.get? (i + 1) = some sj)
    (h1 : si.pos < p) (h2 : p < sj.pos)
    (hpU : p < USIZE) (hjU : sj.pos < USIZE)
    (hmin : min (p - si.pos) (sj.pos - p) ≤ max_dist) :
    cs.find_site cname p max_dist l =
      Except.ok (some (if p - si.pos < sj.pos - p then (i, si) else (i + 1, sj))) := by
  have hbs := between_search hsort hgi hgj h1 h2
  have hd1 : wsub p si.pos = p - si.pos := wsub_eq (Nat.le_of_lt h1) hpU
  have hd2 : wsub sj.pos p = sj.pos - p := wsub_eq (Nat.le_of_lt h2) hjU
  simp only [CutSites.find_site, hl, hbs, Nat.zero_lt_succ, if_true, Nat.add_sub_cancel,
    hgi, hgj, Option.map_some', hd1, hd2]
  by_cases hxy : p - si.pos < sj.pos - p
  · rw [if_pos hxy, if_pos hxy, if_pos (by omega : p - si.pos ≤ max_dist),
      getD_of_get? hgi]
  · rw [if_neg hxy, if_neg hxy, if_pos (by omega : sj.pos - p ≤ max_dist),
      getD_of_get? hgj]

theorem c2_between_sites_amended_witness :
    csC2.find_site "c" 14 100 1000 =
      Except.ok (some (if 14 - 10 < 20 - 14
        then ((0 : Nat), (⟨"A", 10, "b1"⟩ : Site))
        else ((1 : Nat), (⟨"B", 20, "b2"⟩ : Site)))) :=
  c2_between_sites_amended csC2 "c" ⟨"c", none, [⟨"A", 10, "b1"⟩, ⟨"B", 20, "b2"⟩]⟩
    0 14 100 1000 ⟨"A", 10, "b1"⟩ ⟨"B", 20, "b2"⟩ rfl (by decide) rfl rfl
    (by decide) (by decide) (by decide) (by decide) (by decide)

theorem c5_excess_unmatched_gate_witness :
    wRead5.find_site wCs wParam5b = Except.ok (some wFm5) ∧
    ((∀ m, wFm5 = FindMatch.ExcessUnmatched m → wParam5b.max_unmatched < m.inner.unused) ∧
     (∀ m, wFm5 = FindMatch.Match m → m.inner.unused ≤ wParam5b.max_unmatched)) :=
  ⟨rfl, c5_excess_unmatched_gate wRead5 wCs wParam5b wFm5 rfl⟩

end OntDemult
